import Mathlib

/-!
Verification of the core scan → aggregate → prune → delete pipeline of the
`mc` build-artifact cleaner, as a shallow embedding of the Rust sources.

Paths are modelled as their lists of components (`Path := List String`);
Rust's `Path::starts_with` is component-prefix testing, `file_name` is the
last component.  Compiled glob patterns are modelled as their pattern text
together with the external `glob::Pattern::matches` predicate on names
(`String → Bool`), since glob compilation/matching lives in the external
`glob` crate.  Machine integers (`u64`/`usize`) are modelled as `Nat`;
byte sizes are far below 2^64 so wrap-around is not modelled.  The
`rayon` fold/reduce in the scanner merges per-worker accumulators by list
concatenation, so the merged result of any partition equals a sequential
left fold over the entry stream in some order; the embedding takes the
entry stream (`List WalkEntry`) as input and folds sequentially.
-/

namespace MC

/-- A filesystem path, as its list of components
(e.g. `["root", "a", "x.txt"]`).  From `std::path::PathBuf`. -/
abbrev Path := List String

/-- Rust `descendant.starts_with(ancestor)`: component-wise prefix test. -/
def Path.starts_with (descendant base : Path) : Bool :=
  base.isPrefixOf descendant

/-- Rust `path.file_name()`: the last component, if any. -/
def Path.file_name (p : Path) : Option String :=
  p.getLast?

/-- From `src/types.rs`: the types of file system items that can be cleaned. -/
inductive ItemType
  | Directory
  | File
  | Symlink
deriving DecidableEq, Repr

/-- From `src/types.rs`: the possible sources for a cleaning pattern. -/
inductive PatternSource
  | BuiltIn
  | Config
  | CLI
deriving DecidableEq, Repr

/-- From `src/types.rs`: categories for organizing matched patterns. -/
inductive PatternCategory
  | Dependencies
  | BuildOutputs
  | Cache
  | IDE
  | Logs
  | Other
deriving DecidableEq, Repr

/-- From `src/types.rs`: details of a pattern match. -/
structure PatternMatch where
  pattern : String
  priority : Nat
  source : PatternSource
  category : PatternCategory
deriving DecidableEq, Repr

/-- From `src/types.rs`: an item identified for cleaning. -/
structure CleanItem where
  path : Path
  size : Nat
  item_type : ItemType
  pattern : PatternMatch
deriving DecidableEq, Repr

/-- From `src/types.rs`: a per-item error during cleaning. -/
inductive CleanError
  | PermissionDenied (path : Path)
  | IoError (path : Path) (message : String)
  | PatternFailure (message : String)
deriving DecidableEq, Repr

/-- From `src/types.rs`: a recoverable error during scanning. -/
inductive ScanError
  | IoError (path : Path) (message : String)
  | SymlinkCycle (path : Path)
deriving DecidableEq, Repr

/-- From `src/types.rs`: the report summarizing a cleaning operation.
Durations are modelled as `Nat` and not tracked (always 0). -/
structure CleanReport where
  items_deleted : Nat
  bytes_freed : Nat
  errors : List CleanError
  scan_errors : List ScanError
  duration : Nat
  scan_duration : Nat
  dry_run : Bool
  dirs_deleted : Nat
  files_deleted : Nat
  entries_scanned : Nat
deriving DecidableEq, Repr

/-! ### Pattern matcher (`src/patterns/matcher.rs`) -/

/-- A compiled glob pattern: its text (`Pattern::as_str`) and the external
`glob::Pattern::matches` predicate on base names. -/
structure GlobPattern where
  text : String
  matchesName : String → Bool

/-- From `src/patterns/matcher.rs`: the compiled matcher. -/
structure PatternMatcher where
  directory_patterns : List (GlobPattern × PatternCategory)
  file_patterns : List (GlobPattern × PatternCategory)
  exclude_patterns : List GlobPattern

/-- A file type as reported by the walk (Rust `std::fs::FileType`); `other`
stands for entries that are neither directories, regular files nor symlinks. -/
inductive FileType
  | dir
  | file
  | symlink
  | other
deriving DecidableEq, Repr

def FileType.is_dir : FileType → Bool
  | .dir => true
  | _ => false

def FileType.is_file : FileType → Bool
  | .file => true
  | _ => false

def FileType.is_symlink : FileType → Bool
  | .symlink => true
  | _ => false

/-- From `PatternMatcher::is_excluded`: a path is excluded when its base name
matches any exclusion pattern. -/
def PatternMatcher.is_excluded (m : PatternMatcher) (path : Path) : Bool :=
  match path.file_name with
  | some name => m.exclude_patterns.any (fun p => p.matchesName name)
  | none => false

/-- The `for (idx, (pattern, category)) in list.iter().enumerate()` loops in
`PatternMatcher::matches_with_type`: first matching pattern wins, its index is
the priority, the source is always `PatternSource::Config`. -/
def scanPatternList : List (GlobPattern × PatternCategory) → String → Nat → Option PatternMatch
  | [], _, _ => none
  | (pattern, category) :: rest, name, idx =>
    if pattern.matchesName name then
      some { pattern := pattern.text, priority := idx,
             source := PatternSource.Config, category := category }
    else
      scanPatternList rest name (idx + 1)

/-- From `PatternMatcher::matches_with_type`: exclusion check first, then the
directory list (for dir/symlink/unknown-typed entries), then the file list
(for file/symlink/unknown-typed entries). -/
def PatternMatcher.matches_with_type (m : PatternMatcher) (path : Path)
    (file_type : Option FileType) : Option PatternMatch :=
  if m.is_excluded path then none
  else
    match path.file_name with
    | none => none
    | some name =>
      let candidates : Bool × Bool :=
        match file_type with
        | some ft => if ft.is_symlink then (true, true) else (ft.is_dir, ft.is_file)
        | none => (true, true)
      match (if candidates.1 then scanPatternList m.directory_patterns name 0 else none) with
      | some pm => some pm
      | none =>
        if candidates.2 then scanPatternList m.file_patterns name 0 else none

/-- From `PatternMatcher::add_include_patterns`: pattern strings containing a
dot or a star are appended to the file list, others to the directory list.
Glob compilation and the `BUILTIN_PATTERNS.get_category` lookup live outside
this module and are passed in as functions. -/
def PatternMatcher.add_include_patterns (m : PatternMatcher)
    (compile : String → GlobPattern) (get_category : String → PatternCategory)
    (patterns : List String) : PatternMatcher :=
  patterns.foldl
    (fun m pattern_str =>
      let pattern := compile pattern_str
      let category := get_category pattern_str
      if pattern_str.contains '.' || pattern_str.contains '*' then
        { m with file_patterns := m.file_patterns ++ [(pattern, category)] }
      else
        { m with directory_patterns := m.directory_patterns ++ [(pattern, category)] })
    m

/-- Specification-side first-match scan, following the spec's words: the list
is scanned in declaration order, the first pattern whose glob matches the base
name wins, yielding its index as priority and its category. -/
def firstMatchSpec (pats : List (GlobPattern × PatternCategory)) (name : String) :
    Option PatternMatch :=
  (pats.enum.find? (fun ip => ip.2.1.matchesName name)).map
    (fun ip => { pattern := ip.2.1.text, priority := ip.1,
                 source := PatternSource.Config, category := ip.2.2 })

/-! ### Scanner (`src/engine/scanner.rs`) -/

/-- Rust `std::fs::Metadata` as the scanner uses it: `len()` and, for the
followed target of a symlink, `is_file()`. -/
structure Metadata where
  len : Nat
  is_file : Bool
deriving DecidableEq, Repr

/-- One element of the `walkdir` entry stream: either a successfully read
entry (its path, file type, and the result of its `metadata()` call), or a
walk error (best-known path, whether a symlink loop was detected, message). -/
inductive WalkEntry
  | ok (path : Path) (file_type : FileType) (meta : Except String Metadata)
  | err (path : Option Path) (is_loop : Bool) (message : String)
deriving Repr

/-- From `scanner.rs`: the per-worker fold accumulator. -/
structure ScanAccumulator where
  items : List CleanItem := []
  errors : List ScanError := []
  file_sizes : List (Path × Nat) := []
  dir_bases : List (Path × Nat) := []
deriving DecidableEq, Repr

/-- From `scanner.rs` `determine_type`. -/
def determine_type (file_type : FileType) : ItemType :=
  if file_type.is_dir then ItemType.Directory
  else if file_type.is_symlink then ItemType.Symlink
  else ItemType.File

/-- The body of the `fold` closure in `Scanner::scan`, processing one walk
entry.  The tuple computed first models the four mutable locals
`file_size`, `metadata_available`, `contributes_to_dir`, `dir_base_size`
plus the errors pushed while computing them. -/
def scanFoldStep (root : Path) (matcher : PatternMatcher)
    (acc : ScanAccumulator) (entry_result : WalkEntry) : ScanAccumulator :=
  match entry_result with
  | .err path is_loop message =>
    let p := path.getD root
    let error := if is_loop then ScanError.SymlinkCycle p
                 else ScanError.IoError p message
    { acc with errors := acc.errors ++ [error] }
  | .ok path file_type meta =>
    if path = root then acc
    else
      let pattern_match := matcher.matches_with_type path (some file_type)
      let info : Option Nat × Bool × Bool × Option Nat × List ScanError :=
        if file_type.is_file then
          match meta with
          | .ok metadata => (some metadata.len, true, true, none, [])
          | .error e => (none, false, false, none, [ScanError.IoError path e])
        else if file_type.is_dir then
          match meta with
          | .ok metadata => (none, true, false, some metadata.len, [])
          | .error e => (none, false, false, none, [ScanError.IoError path e])
        else if file_type.is_symlink then
          match meta with
          | .ok metadata => (some metadata.len, true, metadata.is_file, none, [])
          | .error e => (none, false, false, none, [ScanError.IoError path e])
        else (none, true, false, none, [])
      let file_size := info.1
      let metadata_available := info.2.1
      let contributes_to_dir := info.2.2.1
      let dir_base_size := info.2.2.2.1
      let acc := { acc with errors := acc.errors ++ info.2.2.2.2 }
      let item_type := determine_type file_type
      let acc :=
        match pattern_match with
        | some pm =>
          if (!(item_type = ItemType.File ∨ item_type = ItemType.Symlink : Bool))
              || metadata_available then
            let size :=
              match item_type with
              | ItemType.File | ItemType.Symlink => file_size.getD 0
              | ItemType.Directory => 0
            { acc with items := acc.items ++
                [{ path := path, size := size, item_type := item_type, pattern := pm }] }
          else acc
        | none => acc
      let acc :=
        match dir_base_size with
        | some size => { acc with dir_bases := acc.dir_bases ++ [(path, size)] }
        | none => acc
      if contributes_to_dir then
        match file_size with
        | some size => { acc with file_sizes := acc.file_sizes ++ [(path, size)] }
        | none => acc
      else acc

/-- Rust `file_path.ancestors().skip(1)`: the proper component-wise
ancestors of a path, longest first, down to the empty path. -/
def ancestorsSkipSelf (p : Path) : List Path :=
  (List.range p.length).map (fun k => p.take (p.length - 1 - k))

/-- The `if let Some(total) = map.get_mut(key) { *total += amount }` idiom on
the association-list model of the `HashMap<PathBuf, u64>`: add to the first
entry with the given key, no-op when the key is absent. -/
def addAt : List (Path × Nat) → Path → Nat → List (Path × Nat)
  | [], _, _ => []
  | (k, v) :: rest, key, amount =>
    if k = key then (k, v + amount) :: rest
    else (k, v) :: addAt rest key amount

/-- Building `dir_sizes` from the deduplicated `matched_dirs` set, every key
mapped to zero. -/
def insertKey (map : List (Path × Nat)) (key : Path) : List (Path × Nat) :=
  if map.any (fun kv => kv.1 = key) then map else map ++ [(key, 0)]

/-- The ancestors the inner aggregation loop visits before its `break`: the
proper ancestors of a recorded file path, longest first, up to the first
one that leaves the scan root. -/
def takenAncestors (root f : Path) : List Path :=
  (ancestorsSkipSelf f).takeWhile (fun a => Path.starts_with a root)

/-- The inner ancestor loop of the aggregation pass: walk the proper
ancestors of a recorded file, stopping at the first one outside the scan
root, and add the file's size to every matched directory on the way. -/
def addFileToDirs (root : Path) (map : List (Path × Nat)) (fp : Path × Nat) :
    List (Path × Nat) :=
  (takenAncestors root fp.1).foldl
    (fun m ancestor => addAt m ancestor fp.2) map

/-- From `Scanner::scan`: fold the entry stream, then aggregate directory
sizes over the matched directories and update the directory items in place.
Returns the candidate items and the scan errors, as the source does. -/
def Scanner.scan (root : Path) (matcher : PatternMatcher)
    (entries : List WalkEntry) : List CleanItem × List ScanError :=
  let accumulator := entries.foldl (scanFoldStep root matcher) {}
  let items := accumulator.items
  let errors := accumulator.errors
  if items.isEmpty then (items, errors)
  else
    let matched_dirs : List Path := items.filterMap
      (fun item => if item.item_type = ItemType.Directory then some item.path else none)
    if matched_dirs.isEmpty then (items, errors)
    else
      let dir_sizes := matched_dirs.foldl insertKey []
      let dir_sizes := accumulator.dir_bases.foldl
        (fun m pb => addAt m pb.1 pb.2) dir_sizes
      let dir_sizes := accumulator.file_sizes.foldl (addFileToDirs root) dir_sizes
      let items := items.map (fun item =>
        if item.item_type = ItemType.Directory then
          match List.lookup item.path dir_sizes with
          | some size => { item with size := size }
          | none => item
        else item)
      (items, errors)

/-! ### Per-entry effect of the scanner fold

Each walk entry contributes at most one candidate item, at most one scan
error, at most one recorded file size and at most one recorded directory
base size; the next four functions read these contributions directly off a
single entry, and `scanFoldStep_eq` shows the fold body appends exactly
them. -/

/-- The candidate item (if any) the fold pushes for one walk entry. -/
def itemRecord (root : Path) (m : PatternMatcher) : WalkEntry → Option CleanItem
  | .err _ _ _ => none
  | .ok path ft meta =>
    if path = root then none
    else
      match m.matches_with_type path (some ft) with
      | none => none
      | some pm =>
        match ft, meta with
        | .file, .ok metadata => some ⟨path, metadata.len, ItemType.File, pm⟩
        | .file, .error _ => none
        | .dir, _ => some ⟨path, 0, ItemType.Directory, pm⟩
        | .symlink, .ok metadata => some ⟨path, metadata.len, ItemType.Symlink, pm⟩
        | .symlink, .error _ => none
        | .other, _ => some ⟨path, 0, ItemType.File, pm⟩

/-- The scan error (if any) the fold records for one walk entry. -/
def errRecord (root : Path) : WalkEntry → Option ScanError
  | .err path is_loop message =>
    some (if is_loop then ScanError.SymlinkCycle (path.getD root)
          else ScanError.IoError (path.getD root) message)
  | .ok path ft meta =>
    if path = root then none
    else
      match ft, meta with
      | .other, _ => none
      | _, .ok _ => none
      | _, .error e => some (ScanError.IoError path e)

/-- The file size recorded for directory aggregation by one walk entry. -/
def fileRecord (root : Path) : WalkEntry → Option (Path × Nat)
  | .err _ _ _ => none
  | .ok path ft meta =>
    if path = root then none
    else
      match ft, meta with
      | .file, .ok metadata => some (path, metadata.len)
      | .symlink, .ok metadata =>
        if metadata.is_file then some (path, metadata.len) else none
      | _, _ => none

/-- The directory base size recorded by one walk entry. -/
def dirBaseRecord (root : Path) : WalkEntry → Option (Path × Nat)
  | .err _ _ _ => none
  | .ok path ft meta =>
    if path = root then none
    else
      match ft, meta with
      | .dir, .ok metadata => some (path, metadata.len)
      | _, _ => none

/-! ### Pruner (`src/engine/mod.rs`) -/

/-- From `is_ancestor` in `src/engine/mod.rs`: equality is not ancestry;
otherwise `descendant.starts_with(ancestor)`. -/
def is_ancestor (ancestor descendant : Path) : Bool :=
  if ancestor = descendant then false
  else Path.starts_with descendant ancestor

/-- `char_compare` compares two characters by code point (Rust compares
`OsStr` bytes; UTF-8 byte order coincides with code-point order). -/
def char_compare (a b : Char) : Ordering :=
  if a < b then Ordering.lt else if a = b then Ordering.eq else Ordering.gt

/-- Lexicographic comparison of character lists (Rust `str` ordering). -/
def chars_compare : List Char → List Char → Ordering
  | [], [] => Ordering.eq
  | [], _ :: _ => Ordering.lt
  | _ :: _, [] => Ordering.gt
  | a :: as, b :: bs => (char_compare a b).then (chars_compare as bs)

/-- Rust `str`/`OsStr` ordering on component names. -/
def string_compare (a b : String) : Ordering :=
  chars_compare a.data b.data

/-- Rust `PathBuf` ordering: lexicographic over components. -/
def path_compare : Path → Path → Ordering
  | [], [] => Ordering.eq
  | [], _ :: _ => Ordering.lt
  | _ :: _, [] => Ordering.gt
  | a :: as, b :: bs => (string_compare a b).then (path_compare as bs)

/-- The comparator passed to `items.sort_by` in `prune_nested_items`:
path depth (component count) first, full path order as tie-break. -/
def prune_cmp (a b : CleanItem) : Ordering :=
  (compare a.path.length b.path.length).then (path_compare a.path b.path)

/-- `prune_cmp` as the boolean `le` used for stable merge sorting. -/
def prune_le (a b : CleanItem) : Bool :=
  (prune_cmp a b).isLE

/-- The elimination loop of `prune_nested_items`: keep an item iff no
already-kept item is a strict ancestor of its path. -/
def pruneLoop : List CleanItem → List CleanItem → List CleanItem
  | pruned, [] => pruned
  | pruned, item :: rest =>
    if pruned.any (fun kept => is_ancestor kept.path item.path) then
      pruneLoop pruned rest
    else
      pruneLoop (pruned ++ [item]) rest

/-- From `src/engine/mod.rs` `prune_nested_items`: sort ascending by depth
(ties by path), then walk the sorted list keeping only items with no
already-kept strict ancestor. -/
def prune_nested_items (items : List CleanItem) : List CleanItem :=
  if items.isEmpty then items
  else pruneLoop [] (items.mergeSort prune_le)

/-! ### Parallel cleaner (`src/engine/cleaner.rs`) -/

/-- The filesystem deletion primitives used by `ParallelCleaner::delete_item`
(`fs::remove_dir_all`, `fs::remove_file`), modelled as functions returning
the `io::Result` of deleting the given path. -/
structure FsModel where
  remove_dir_all : Path → Except String Unit
  remove_file : Path → Except String Unit

/-- From `ParallelCleaner` in `src/engine/cleaner.rs` (the thread pool and
progress sink carry no observable state for the report and are omitted). -/
structure ParallelCleaner where
  thread_count : Nat := 8
  chunk_size : Nat := 1
  dry_run : Bool := false

/-- From `ParallelCleaner::with_dry_run`. -/
def ParallelCleaner.with_dry_run (c : ParallelCleaner) (dry_run : Bool) :
    ParallelCleaner :=
  { c with dry_run := dry_run }

/-- From `ParallelCleaner::delete_item`: directories are removed recursively,
files directly, symlinks as links via `remove_file` (the Unix branch). -/
def delete_item (fs : FsModel) (item : CleanItem) : Except String Unit :=
  match item.item_type with
  | ItemType.Directory => fs.remove_dir_all item.path
  | ItemType.File => fs.remove_file item.path
  | ItemType.Symlink => fs.remove_file item.path

/-- The shared `Statistics` counters and the error accumulator list of the
live cleaning pass.  The per-item updates commute (counter increments and
error-list insertions), so the parallel `for_each` is modelled as a fold. -/
structure LiveStats where
  items_deleted : Nat := 0
  bytes_freed : Nat := 0
  errors : List CleanError := []

/-- The per-item closure of the live `par_iter().for_each(...)` in
`ParallelCleaner::clean`. -/
def cleanStep (fs : FsModel) (st : LiveStats) (item : CleanItem) : LiveStats :=
  match delete_item fs item with
  | Except.ok _ =>
    { st with items_deleted := st.items_deleted + 1,
              bytes_freed := st.bytes_freed + item.size }
  | Except.error err =>
    { st with errors := st.errors ++ [CleanError.IoError item.path err] }

/-- From `ParallelCleaner::dry_run_clean`: totals and per-type counts over
the given items, an empty error list, and the dry-run flag; no filesystem
call is made (the console printing is display-only and not modelled). -/
def dry_run_clean (items : List CleanItem) : CleanReport :=
  let total_size := (items.map (fun i => i.size)).sum
  let parts := items.foldl
    (fun (dv : List CleanItem × List CleanItem) item =>
      match item.item_type with
      | ItemType.Directory => (dv.1 ++ [item], dv.2)
      | _ => (dv.1, dv.2 ++ [item]))
    ([], [])
  { items_deleted := items.length
    bytes_freed := total_size
    errors := []
    scan_errors := []
    duration := 0
    scan_duration := 0
    dry_run := true
    dirs_deleted := parts.1.length
    files_deleted := parts.2.length
    entries_scanned := 0 }

/-- From `ParallelCleaner::clean`: in dry-run mode delegate to
`dry_run_clean`; otherwise sort by descending size and attempt every item
once, accumulating the shared statistics.  The second component is the list
of paths on which a deletion was attempted (empty for a dry run). -/
def ParallelCleaner.clean (c : ParallelCleaner) (fs : FsModel)
    (items : List CleanItem) : CleanReport × List Path :=
  if c.dry_run then (dry_run_clean items, [])
  else
    let sorted := items.mergeSort (fun a b => decide (b.size ≤ a.size))
    let stats := sorted.foldl (cleanStep fs) {}
    ({ items_deleted := stats.items_deleted
       bytes_freed := stats.bytes_freed
       errors := stats.errors
       scan_errors := []
       duration := 0
       scan_duration := 0
       dry_run := false
       dirs_deleted := 0
       files_deleted := 0
       entries_scanned := 0 },
     sorted.map (fun i => i.path))

/-- Whether deleting this item succeeds against the given filesystem. -/
def okItem (fs : FsModel) (i : CleanItem) : Bool :=
  match delete_item fs i with
  | Except.ok _ => true
  | Except.error _ => false

/-- The error-list entry (if any) the live cleaning pass pushes for one
item. -/
def errOf (fs : FsModel) (i : CleanItem) : Option CleanError :=
  match delete_item fs i with
  | Except.ok _ => none
  | Except.error e => some (CleanError.IoError i.path e)

/-! ### Matcher lemmas -/

theorem scanPatternList_source_config :
    ∀ (pats : List (GlobPattern × PatternCategory)) (name : String) (idx : Nat)
      (pm : PatternMatch), scanPatternList pats name idx = some pm →
      pm.source = PatternSource.Config := by
  intro pats
  induction pats with
  | nil => intro name idx pm h; simp [scanPatternList] at h
  | cons hd tl ih =>
    intro name idx pm h
    obtain ⟨pattern, category⟩ := hd
    simp only [scanPatternList] at h
    by_cases hm : pattern.matchesName name = true
    · rw [if_pos hm] at h
      cases h
      rfl
    · rw [if_neg hm] at h
      exact ih name (idx + 1) pm h

theorem scanPatternList_eq_firstMatch :
    ∀ (pats : List (GlobPattern × PatternCategory)) (name : String) (idx : Nat),
      scanPatternList pats name idx =
        ((pats.enumFrom idx).find? (fun ip => ip.2.1.matchesName name)).map
          (fun ip => { pattern := ip.2.1.text, priority := ip.1,
                       source := PatternSource.Config, category := ip.2.2 }) := by
  intro pats
  induction pats with
  | nil => intro name idx; simp [scanPatternList, List.enumFrom]
  | cons hd tl ih =>
    intro name idx
    obtain ⟨pattern, category⟩ := hd
    simp only [scanPatternList, List.enumFrom, List.find?]
    by_cases hm : pattern.matchesName name = true
    · simp [hm]
    · simp only [Bool.not_eq_true] at hm
      simp [hm, ih name (idx + 1)]

theorem firstMatchSpec_eq_scan (pats : List (GlobPattern × PatternCategory))
    (name : String) : scanPatternList pats name 0 = firstMatchSpec pats name := by
  rw [scanPatternList_eq_firstMatch]
  rfl

theorem scanFoldStep_eq (root : Path) (m : PatternMatcher)
    (acc : ScanAccumulator) (e : WalkEntry) :
    scanFoldStep root m acc e =
      { items := acc.items ++ (itemRecord root m e).toList
        errors := acc.errors ++ (errRecord root e).toList
        file_sizes := acc.file_sizes ++ (fileRecord root e).toList
        dir_bases := acc.dir_bases ++ (dirBaseRecord root e).toList } := by
  cases e with
  | err path is_loop message =>
    simp [scanFoldStep, itemRecord, errRecord, fileRecord, dirBaseRecord]
  | ok path ft meta =>
    by_cases hroot : path = root
    · simp [scanFoldStep, itemRecord, errRecord, fileRecord, dirBaseRecord, hroot]
    · rcases hpm : m.matches_with_type path (some ft) with _ | pm <;>
        cases ft <;> rcases meta with e' | md <;>
        simp [scanFoldStep, itemRecord, errRecord, fileRecord, dirBaseRecord,
              determine_type, FileType.is_file, FileType.is_dir,
              FileType.is_symlink, hroot, hpm] <;>
      rcases hmf : md.is_file with _ | _ <;> simp [hmf]

theorem filterMap_cons_toList {α β : Type} (f : α → Option β) (a : α)
    (l : List α) : List.filterMap f (a :: l) = (f a).toList ++ List.filterMap f l := by
  cases h : f a <;> simp [h]

/-- The whole entry-stream fold, characterized field by field. -/
theorem scan_foldl_eq (root : Path) (m : PatternMatcher) :
    ∀ (entries : List WalkEntry) (acc : ScanAccumulator),
      entries.foldl (scanFoldStep root m) acc =
        { items := acc.items ++ entries.filterMap (itemRecord root m)
          errors := acc.errors ++ entries.filterMap (errRecord root)
          file_sizes := acc.file_sizes ++ entries.filterMap (fileRecord root)
          dir_bases := acc.dir_bases ++ entries.filterMap (dirBaseRecord root) } := by
  intro entries
  induction entries with
  | nil => intro acc; simp
  | cons e rest ih =>
    intro acc
    simp only [List.foldl_cons, ih, scanFoldStep_eq,
               filterMap_cons_toList, List.append_assoc]

theorem matches_with_type_source (m : PatternMatcher) (path : Path)
    (file_type : Option FileType) (pm : PatternMatch)
    (h : m.matches_with_type path file_type = some pm) :
    pm.source = PatternSource.Config := by
  simp only [PatternMatcher.matches_with_type] at h
  split at h
  · exact absurd h (by simp)
  · split at h
    · exact absurd h (by simp)
    · split at h
      next pm' heq =>
        cases h
        split at heq
        · exact scanPatternList_source_config _ _ _ _ heq
        · exact absurd heq (by simp)
      next heq =>
        split at h
        · exact scanPatternList_source_config _ _ _ _ h
        · exact absurd h (by simp)

/-- C5: if an entry's base name matches any exclusion pattern, the matcher
returns no match whatever the directory and file include lists and the
file-type hint are, and the scanner fold adds no candidate item for such an
entry. -/
theorem excluded_name_never_matches (m : PatternMatcher) (path : Path)
    (name : String) (file_type : Option FileType)
    (hname : path.file_name = some name)
    (hex : m.exclude_patterns.any (fun p => p.matchesName name) = true) :
    m.matches_with_type path file_type = none ∧
    ∀ (root : Path) (acc : ScanAccumulator) (ft : FileType)
      (meta : Except String Metadata),
      (scanFoldStep root m acc (WalkEntry.ok path ft meta)).items = acc.items := by
  have hexc : m.is_excluded path = true := by
    simp [PatternMatcher.is_excluded, hname, hex]
  refine ⟨by simp [PatternMatcher.matches_with_type, hexc], ?_⟩
  intro root acc ft meta
  rw [scanFoldStep_eq]
  have hnone : itemRecord root m (WalkEntry.ok path ft meta) = none := by
    by_cases hroot : path = root
    · simp [itemRecord, hroot]
    · simp [itemRecord, hroot, PatternMatcher.matches_with_type, hexc]
  simp [hnone]

/-- C5 witness: a concrete matcher whose include lists and exclude list all
contain a pattern matching the name `target`; the matcher rejects the entry
and a fold step over it keeps the item list unchanged. -/
theorem excluded_name_never_matches_witness :
    PatternMatcher.matches_with_type
      { directory_patterns := [(⟨"target", fun n => n == "target"⟩, PatternCategory.BuildOutputs)]
        file_patterns := [(⟨"target", fun n => n == "target"⟩, PatternCategory.Other)]
        exclude_patterns := [⟨"target", fun n => n == "target"⟩] }
      ["proj", "target"] (some FileType.dir) = none ∧
    (scanFoldStep ["proj"]
      { directory_patterns := [(⟨"target", fun n => n == "target"⟩, PatternCategory.BuildOutputs)]
        file_patterns := [(⟨"target", fun n => n == "target"⟩, PatternCategory.Other)]
        exclude_patterns := [⟨"target", fun n => n == "target"⟩] }
      {} (WalkEntry.ok ["proj", "target"] FileType.dir
           (Except.ok ⟨4096, false⟩))).items = ({} : ScanAccumulator).items := by
  have h := excluded_name_never_matches
    { directory_patterns := [(⟨"target", fun n => n == "target"⟩, PatternCategory.BuildOutputs)]
      file_patterns := [(⟨"target", fun n => n == "target"⟩, PatternCategory.Other)]
      exclude_patterns := [⟨"target", fun n => n == "target"⟩] }
    ["proj", "target"] "target" (some FileType.dir) (by decide) (by decide)
  exact ⟨h.1, h.2 ["proj"] {} FileType.dir (Except.ok ⟨4096, false⟩)⟩

/-- C6 counterexample: the name `build` is in both include lists and in no
exclude list, yet with a present-but-unknown file-type hint (an entry that
is neither directory, file nor symlink — e.g. a socket or fifo) the matcher
tests neither list and returns no match, although the directory list has a
first match at priority 0 that the claim says such a hint should return. -/
theorem symlink_or_absent_checks_both_lists_counterexample :
    PatternMatcher.matches_with_type
      { directory_patterns := [(⟨"build", fun n => n == "build"⟩, PatternCategory.BuildOutputs)]
        file_patterns := [(⟨"build", fun n => n == "build"⟩, PatternCategory.Other)]
        exclude_patterns := [] }
      ["x", "build"] (some FileType.other) = none ∧
    firstMatchSpec
      [(⟨"build", fun n => n == "build"⟩, PatternCategory.BuildOutputs)] "build" =
      some { pattern := "build", priority := 0, source := PatternSource.Config,
             category := PatternCategory.BuildOutputs } :=
  ⟨by decide, by decide⟩

/-- C6 (amended): for a non-excluded name, when the file-type hint is
symlink or absent the matcher's result is the first match of the directory
list scanned in declaration order (index as priority), and only if the
directory list has no match, the first match of the file list — so a name
matching both lists gets the directory rule; a hint that is present but
unknown (neither directory, file nor symlink) tests neither list and
yields no match. -/
theorem symlink_or_absent_checks_both_lists (m : PatternMatcher) (path : Path)
    (name : String)
    (hname : path.file_name = some name)
    (hnx : m.exclude_patterns.any (fun p => p.matchesName name) = false) :
    (∀ file_type : Option FileType,
       file_type = none ∨ file_type = some FileType.symlink →
       m.matches_with_type path file_type =
         (match firstMatchSpec m.directory_patterns name with
          | some pm => some pm
          | none => firstMatchSpec m.file_patterns name)) ∧
    m.matches_with_type path (some FileType.other) = none := by
  have hexc : m.is_excluded path = false := by
    simp [PatternMatcher.is_excluded, hname, hnx]
  constructor
  · intro file_type hft
    rcases hft with h | h <;> subst h <;>
      simp [PatternMatcher.matches_with_type, hexc, hname, FileType.is_symlink,
            firstMatchSpec_eq_scan]
  · simp [PatternMatcher.matches_with_type, hexc, hname, FileType.is_symlink,
          FileType.is_dir, FileType.is_file]

/-- C6 witness: the name `build` matches both a directory rule and a file
rule; with a symlink hint the directory rule (priority 0, BuildOutputs)
wins, and with an unknown-typed hint nothing matches. -/
theorem symlink_or_absent_checks_both_lists_witness :
    PatternMatcher.matches_with_type
      { directory_patterns := [(⟨"build", fun n => n == "build"⟩, PatternCategory.BuildOutputs)]
        file_patterns := [(⟨"build", fun n => n == "build"⟩, PatternCategory.Other)]
        exclude_patterns := [] }
      ["x", "build"] (some FileType.symlink) =
      some { pattern := "build", priority := 0, source := PatternSource.Config,
             category := PatternCategory.BuildOutputs } ∧
    PatternMatcher.matches_with_type
      { directory_patterns := [(⟨"build", fun n => n == "build"⟩, PatternCategory.BuildOutputs)]
        file_patterns := [(⟨"build", fun n => n == "build"⟩, PatternCategory.Other)]
        exclude_patterns := [] }
      ["x", "build"] (some FileType.other) = none := by
  have h := symlink_or_absent_checks_both_lists
    { directory_patterns := [(⟨"build", fun n => n == "build"⟩, PatternCategory.BuildOutputs)]
      file_patterns := [(⟨"build", fun n => n == "build"⟩, PatternCategory.Other)]
      exclude_patterns := [] }
    ["x", "build"] "build" (by decide) (by decide)
  refine ⟨?_, h.2⟩
  rw [h.1 (some FileType.symlink) (Or.inr rfl)]
  decide

/-- C10: every match the matcher produces carries `PatternSource::Config` as
its source, both for an arbitrary compiled matcher and after appending
command-line include patterns at runtime. -/
theorem match_source_always_config (m : PatternMatcher) (path : Path)
    (file_type : Option FileType) (pm : PatternMatch)
    (compile : String → GlobPattern) (get_category : String → PatternCategory)
    (cli_patterns : List String) :
    (m.matches_with_type path file_type = some pm →
       pm.source = PatternSource.Config) ∧
    ((m.add_include_patterns compile get_category cli_patterns).matches_with_type
        path file_type = some pm → pm.source = PatternSource.Config) :=
  ⟨matches_with_type_source m path file_type pm,
   matches_with_type_source _ path file_type pm⟩

/-- C10 witness: a matcher extended at runtime with the pattern `vendor`
still reports source Config for the resulting match. -/
theorem match_source_always_config_witness :
    PatternSource.Config = PatternSource.Config ∧
    ({ pattern := "vendor", priority := 0, source := PatternSource.Config,
       category := PatternCategory.Dependencies } : PatternMatch).source =
      PatternSource.Config := by
  refine ⟨rfl, ?_⟩
  exact (match_source_always_config
    { directory_patterns := [(⟨"vendor", fun n => n == "vendor"⟩, PatternCategory.Dependencies)]
      file_patterns := [], exclude_patterns := [] }
    ["vendor"] (some FileType.dir)
    { pattern := "vendor", priority := 0, source := PatternSource.Config,
      category := PatternCategory.Dependencies }
    (fun s => ⟨s, fun n => n == s⟩) (fun _ => PatternCategory.Dependencies)
    []).2 (by decide)

/-- C7: a file or symlink entry whose metadata fetch fails is recorded as an
`IoError` scan failure with its path and message, and contributes no
candidate item (in particular no zero-sized one) and no recorded file size,
whatever the matcher would have said about its name. -/
theorem metadata_failure_excludes_entry (root : Path) (m : PatternMatcher)
    (acc : ScanAccumulator) (path : Path) (ft : FileType) (msg : String)
    (hroot : path ≠ root) (hft : ft = FileType.file ∨ ft = FileType.symlink) :
    (scanFoldStep root m acc (WalkEntry.ok path ft (Except.error msg))).items
        = acc.items ∧
    (scanFoldStep root m acc (WalkEntry.ok path ft (Except.error msg))).errors
        = acc.errors ++ [ScanError.IoError path msg] ∧
    (scanFoldStep root m acc (WalkEntry.ok path ft (Except.error msg))).file_sizes
        = acc.file_sizes := by
  have hitem : itemRecord root m (WalkEntry.ok path ft (Except.error msg)) = none := by
    rcases hpm : m.matches_with_type path (some ft) with _ | pm <;>
      rcases hft with h | h <;> subst h <;> simp [itemRecord, hroot, hpm]
  have herr : errRecord root (WalkEntry.ok path ft (Except.error msg)) =
      some (ScanError.IoError path msg) := by
    rcases hft with h | h <;> subst h <;> simp [errRecord, hroot]
  have hfile : fileRecord root (WalkEntry.ok path ft (Except.error msg)) = none := by
    rcases hft with h | h <;> subst h <;> simp [fileRecord, hroot]
  rw [scanFoldStep_eq]
  simp [hitem, herr, hfile]

/-- C7 witness: an unreadable `app.log` whose name matches the include
pattern `*.log` yields exactly one `IoError` and no candidate. -/
theorem metadata_failure_excludes_entry_witness :
    (scanFoldStep ["r"]
      { directory_patterns := []
        file_patterns := [(⟨"*.log", fun n => n == "app.log"⟩, PatternCategory.Logs)]
        exclude_patterns := [] }
      {} (WalkEntry.ok ["r", "app.log"] FileType.file
            (Except.error "permission denied"))).items = ({} : ScanAccumulator).items ∧
    (scanFoldStep ["r"]
      { directory_patterns := []
        file_patterns := [(⟨"*.log", fun n => n == "app.log"⟩, PatternCategory.Logs)]
        exclude_patterns := [] }
      {} (WalkEntry.ok ["r", "app.log"] FileType.file
            (Except.error "permission denied"))).errors =
      ({} : ScanAccumulator).errors ++
        [ScanError.IoError ["r", "app.log"] "permission denied"] ∧
    (scanFoldStep ["r"]
      { directory_patterns := []
        file_patterns := [(⟨"*.log", fun n => n == "app.log"⟩, PatternCategory.Logs)]
        exclude_patterns := [] }
      {} (WalkEntry.ok ["r", "app.log"] FileType.file
            (Except.error "permission denied"))).file_sizes =
      ({} : ScanAccumulator).file_sizes :=
  metadata_failure_excludes_entry ["r"]
    { directory_patterns := []
      file_patterns := [(⟨"*.log", fun n => n == "app.log"⟩, PatternCategory.Logs)]
      exclude_patterns := [] }
    {} ["r", "app.log"] FileType.file "permission denied"
    (by decide) (Or.inl rfl)

/-- C9: evaluated at a concrete walk, `Scanner.scan` returns exactly the
pair of candidate items and scan failures — there is no third component and
`ScanAccumulator` carries no counter of visited entries, contradicting the
claim that the scan outcome carries the raw visited-entry count (the caller
in `lib.rs` line 171 destructures a third `entries_scanned` component that
this scanner never produces). -/
theorem scan_outcome_has_no_entry_count :
    Scanner.scan ["r"]
      { directory_patterns := []
        file_patterns := [(⟨"*.log", fun n => n == "app.log"⟩, PatternCategory.Logs)]
        exclude_patterns := [] }
      [WalkEntry.ok ["r", "app.log"] FileType.file (Except.ok ⟨10, true⟩),
       WalkEntry.err none true "symlink loop"] =
    ([{ path := ["r", "app.log"], size := 10, item_type := ItemType.File,
        pattern := { pattern := "*.log", priority := 0,
                     source := PatternSource.Config,
                     category := PatternCategory.Logs } }],
     [ScanError.SymlinkCycle ["r"]]) := by
  decide

/-- The partition of items into directories and files performed by
`dry_run_clean`'s display loop, expressed with filters. -/
theorem dry_parts_eq (items : List CleanItem) : ∀ (d f : List CleanItem),
    items.foldl
      (fun (dv : List CleanItem × List CleanItem) item =>
        match item.item_type with
        | ItemType.Directory => (dv.1 ++ [item], dv.2)
        | _ => (dv.1, dv.2 ++ [item])) (d, f) =
    (d ++ items.filter (fun i => i.item_type == ItemType.Directory),
     f ++ items.filter (fun i => !(i.item_type == ItemType.Directory))) := by
  induction items with
  | nil => simp
  | cons i rest ih =>
    intro d f
    cases hit : i.item_type <;>
      simp [List.foldl_cons, hit, ih, List.filter_cons, List.append_assoc]

/-- C4: a dry-run clean performs no deletion (the attempted-path list is
empty) and returns a report flagged `dry_run` with the item count, the sum
of the item sizes, per-type counts (directories / all remaining items), and
an empty deletion-error list. -/
theorem dry_run_purity (c : ParallelCleaner) (fs : FsModel)
    (items : List CleanItem) (h : c.dry_run = true) :
    c.clean fs items =
      ({ items_deleted := items.length
         bytes_freed := (items.map (fun i => i.size)).sum
         errors := []
         scan_errors := []
         duration := 0
         scan_duration := 0
         dry_run := true
         dirs_deleted := (items.filter (fun i => i.item_type == ItemType.Directory)).length
         files_deleted := (items.filter (fun i => !(i.item_type == ItemType.Directory))).length
         entries_scanned := 0 }, []) := by
  simp [ParallelCleaner.clean, h, dry_run_clean, dry_parts_eq]

/-- C4 witness: a concrete dry run over one directory and one file leaves
the attempted-deletion list empty and reports 2 items, 15 bytes, 1
directory, 1 file and no errors. -/
theorem dry_run_purity_witness :
    (({} : ParallelCleaner).with_dry_run true).clean
      { remove_dir_all := fun _ => Except.error "must not be called"
        remove_file := fun _ => Except.error "must not be called" }
      [{ path := ["d", "node_modules"], size := 10, item_type := ItemType.Directory,
         pattern := { pattern := "node_modules", priority := 0,
                      source := PatternSource.Config,
                      category := PatternCategory.Dependencies } },
       { path := ["d", "app.log"], size := 5, item_type := ItemType.File,
         pattern := { pattern := "*.log", priority := 0,
                      source := PatternSource.Config,
                      category := PatternCategory.Logs } }] =
      ({ items_deleted := 2, bytes_freed := 15, errors := [], scan_errors := [],
         duration := 0, scan_duration := 0, dry_run := true, dirs_deleted := 1,
         files_deleted := 1, entries_scanned := 0 }, []) := by
  rw [dry_run_purity _ _ _ rfl]
  decide

/-! ### Ordering lemmas for the prune comparator -/

theorem ordering_isLE_iff (o : Ordering) :
    o.isLE = true ↔ o = Ordering.lt ∨ o = Ordering.eq := by
  cases o <;> simp [Ordering.isLE]

theorem ordering_then_isLE_iff (a b : Ordering) :
    (a.then b).isLE = true ↔
      a = Ordering.lt ∨ (a = Ordering.eq ∧ b.isLE = true) := by
  cases a <;> cases b <;> simp [Ordering.then, Ordering.isLE]

theorem ordering_then_eq_lt_iff (a b : Ordering) :
    a.then b = Ordering.lt ↔
      a = Ordering.lt ∨ (a = Ordering.eq ∧ b = Ordering.lt) := by
  cases a <;> cases b <;> simp [Ordering.then]

theorem ordering_then_swap (a b : Ordering) :
    (a.then b).swap = a.swap.then b.swap := by
  cases a <;> cases b <;> simp [Ordering.then, Ordering.swap]

theorem char_compare_eq_iff (a b : Char) :
    char_compare a b = Ordering.eq ↔ a = b := by
  unfold char_compare
  rcases lt_trichotomy a b with h | h | h
  · simp [h, ne_of_lt h]
  · simp [h, lt_irrefl]
  · simp [not_lt_of_gt h, (ne_of_lt h).symm]

theorem char_compare_swap (a b : Char) :
    char_compare b a = (char_compare a b).swap := by
  unfold char_compare
  rcases lt_trichotomy a b with h | h | h
  · simp [h, lt_asymm h, (ne_of_lt h).symm, Ordering.swap]
  · subst h
    simp [lt_irrefl, Ordering.swap]
  · simp [h, lt_asymm h, ne_of_gt h, Ordering.swap]

theorem char_compare_lt_iff (a b : Char) :
    char_compare a b = Ordering.lt ↔ a < b := by
  unfold char_compare
  rcases lt_trichotomy a b with h | h | h
  · simp [h]
  · subst h
    simp [lt_irrefl]
  · simp [lt_asymm h, ne_of_gt h]

theorem char_compare_lt_trans {a b c : Char}
    (h₁ : char_compare a b = Ordering.lt) (h₂ : char_compare b c = Ordering.lt) :
    char_compare a c = Ordering.lt := by
  rw [char_compare_lt_iff] at h₁ h₂ ⊢
  exact lt_trans h₁ h₂

theorem chars_compare_eq_iff : ∀ (a b : List Char),
    chars_compare a b = Ordering.eq ↔ a = b := by
  intro a
  induction a with
  | nil => intro b; cases b <;> simp [chars_compare]
  | cons x xs ih =>
    intro b
    cases b with
    | nil => simp [chars_compare]
    | cons y ys =>
      simp only [chars_compare, List.cons.injEq]
      constructor
      · intro h
        rcases hcc : char_compare x y with _ | _ | _ <;> rw [hcc] at h <;>
          simp [Ordering.then] at h
        exact ⟨(char_compare_eq_iff x y).mp hcc, (ih ys).mp h⟩
      · rintro ⟨rfl, rfl⟩
        rw [(char_compare_eq_iff x x).mpr rfl]
        simpa [Ordering.then] using (ih xs).mpr rfl

theorem chars_compare_swap : ∀ (a b : List Char),
    chars_compare b a = (chars_compare a b).swap := by
  intro a
  induction a with
  | nil => intro b; cases b <;> simp [chars_compare, Ordering.swap]
  | cons x xs ih =>
    intro b
    cases b with
    | nil => simp [chars_compare, Ordering.swap]
    | cons y ys =>
      simp only [chars_compare]
      rw [char_compare_swap, ih ys, ordering_then_swap]

theorem chars_compare_lt_trans : ∀ (a b c : List Char),
    chars_compare a b = Ordering.lt → chars_compare b c = Ordering.lt →
    chars_compare a c = Ordering.lt := by
  intro a
  induction a with
  | nil =>
    intro b c h₁ h₂
    cases b with
    | nil => exact h₂
    | cons y ys => cases c with
      | nil => simp [chars_compare] at h₂
      | cons z zs => simp [chars_compare]
  | cons x xs ih =>
    intro b c h₁ h₂
    cases b with
    | nil => simp [chars_compare] at h₁
    | cons y ys =>
      cases c with
      | nil => simp [chars_compare] at h₂
      | cons z zs =>
        simp only [chars_compare, ordering_then_eq_lt_iff] at h₁ h₂ ⊢
        rcases h₁ with h₁ | ⟨h₁e, h₁t⟩ <;> rcases h₂ with h₂ | ⟨h₂e, h₂t⟩
        · exact Or.inl (char_compare_lt_trans h₁ h₂)
        · obtain rfl := (char_compare_eq_iff y z).mp h₂e
          exact Or.inl h₁
        · obtain rfl := (char_compare_eq_iff x y).mp h₁e
          exact Or.inl h₂
        · obtain rfl := (char_compare_eq_iff x y).mp h₁e
          exact Or.inr ⟨h₂e, ih ys zs h₁t h₂t⟩

theorem string_compare_eq_iff (a b : String) :
    string_compare a b = Ordering.eq ↔ a = b := by
  unfold string_compare
  rw [chars_compare_eq_iff]
  constructor
  · intro h
    cases a
    cases b
    exact congrArg String.mk h
  · intro h
    rw [h]

theorem string_compare_swap (a b : String) :
    string_compare b a = (string_compare a b).swap :=
  chars_compare_swap a.data b.data

theorem string_compare_lt_trans {a b c : String}
    (h₁ : string_compare a b = Ordering.lt)
    (h₂ : string_compare b c = Ordering.lt) :
    string_compare a c = Ordering.lt :=
  chars_compare_lt_trans a.data b.data c.data h₁ h₂

theorem path_compare_eq_iff : ∀ (a b : Path),
    path_compare a b = Ordering.eq ↔ a = b := by
  intro a
  induction a with
  | nil => intro b; cases b <;> simp [path_compare]
  | cons x xs ih =>
    intro b
    cases b with
    | nil => simp [path_compare]
    | cons y ys =>
      simp only [path_compare, List.cons.injEq]
      constructor
      · intro h
        rcases hcc : string_compare x y with _ | _ | _ <;> rw [hcc] at h <;>
          simp [Ordering.then] at h
        exact ⟨(string_compare_eq_iff x y).mp hcc, (ih ys).mp h⟩
      · rintro ⟨rfl, rfl⟩
        rw [(string_compare_eq_iff x x).mpr rfl]
        simpa [Ordering.then] using (ih xs).mpr rfl

theorem path_compare_swap : ∀ (a b : Path),
    path_compare b a = (path_compare a b).swap := by
  intro a
  induction a with
  | nil => intro b; cases b <;> simp [path_compare, Ordering.swap]
  | cons x xs ih =>
    intro b
    cases b with
    | nil => simp [path_compare, Ordering.swap]
    | cons y ys =>
      simp only [path_compare]
      rw [string_compare_swap, ih ys, ordering_then_swap]

theorem path_compare_lt_trans : ∀ (a b c : Path),
    path_compare a b = Ordering.lt → path_compare b c = Ordering.lt →
    path_compare a c = Ordering.lt := by
  intro a
  induction a with
  | nil =>
    intro b c h₁ h₂
    cases b with
    | nil => exact h₂
    | cons y ys => cases c with
      | nil => simp [path_compare] at h₂
      | cons z zs => simp [path_compare]
  | cons x xs ih =>
    intro b c h₁ h₂
    cases b with
    | nil => simp [path_compare] at h₁
    | cons y ys =>
      cases c with
      | nil => simp [path_compare] at h₂
      | cons z zs =>
        simp only [path_compare, ordering_then_eq_lt_iff] at h₁ h₂ ⊢
        rcases h₁ with h₁ | ⟨h₁e, h₁t⟩ <;> rcases h₂ with h₂ | ⟨h₂e, h₂t⟩
        · exact Or.inl (string_compare_lt_trans h₁ h₂)
        · obtain rfl := (string_compare_eq_iff y z).mp h₂e
          exact Or.inl h₁
        · obtain rfl := (string_compare_eq_iff x y).mp h₁e
          exact Or.inl h₂
        · obtain rfl := (string_compare_eq_iff x y).mp h₁e
          exact Or.inr ⟨h₂e, ih ys zs h₁t h₂t⟩

theorem path_compare_isLE_trans {a b c : Path}
    (h₁ : (path_compare a b).isLE = true) (h₂ : (path_compare b c).isLE = true) :
    (path_compare a c).isLE = true := by
  rw [ordering_isLE_iff] at h₁ h₂ ⊢
  rcases h₁ with h₁ | h₁ <;> rcases h₂ with h₂ | h₂
  · exact Or.inl (path_compare_lt_trans a b c h₁ h₂)
  · obtain rfl := (path_compare_eq_iff b c).mp h₂
    exact Or.inl h₁
  · obtain rfl := (path_compare_eq_iff a b).mp h₁
    exact Or.inl h₂
  · obtain rfl := (path_compare_eq_iff a b).mp h₁
    exact Or.inr h₂

theorem path_compare_isLE_total (a b : Path) :
    (path_compare a b).isLE = true ∨ (path_compare b a).isLE = true := by
  rw [path_compare_swap a b]
  cases h : path_compare a b <;> simp [Ordering.swap, Ordering.isLE]

/-! ### The prune comparator is a total preorder -/

theorem prune_le_trans (a b c : CleanItem) :
    prune_le a b → prune_le b c → prune_le a c := by
  intro h₁ h₂
  simp only [prune_le, prune_cmp, ordering_then_isLE_iff] at h₁ h₂ ⊢
  rcases h₁ with h₁ | ⟨h₁e, h₁p⟩ <;> rcases h₂ with h₂ | ⟨h₂e, h₂p⟩
  · exact Or.inl (compare_lt_iff_lt.mpr
      (lt_trans (compare_lt_iff_lt.mp h₁) (compare_lt_iff_lt.mp h₂)))
  · rw [compare_eq_iff_eq.mp h₂e] at h₁
    exact Or.inl h₁
  · rw [← compare_eq_iff_eq.mp h₁e] at h₂
    exact Or.inl h₂
  · refine Or.inr ⟨?_, path_compare_isLE_trans h₁p h₂p⟩
    rw [compare_eq_iff_eq] at h₁e h₂e ⊢
    omega

theorem prune_le_total (a b : CleanItem) :
    prune_le a b || prune_le b a := by
  simp only [prune_le, prune_cmp, Bool.or_eq_true, ordering_then_isLE_iff]
  rcases lt_trichotomy a.path.length b.path.length with h | h | h
  · exact Or.inl (Or.inl (compare_lt_iff_lt.mpr h))
  · rcases path_compare_isLE_total a.path b.path with hp | hp
    · exact Or.inl (Or.inr ⟨compare_eq_iff_eq.mpr h, hp⟩)
    · exact Or.inr (Or.inr ⟨compare_eq_iff_eq.mpr h.symm, hp⟩)
  · exact Or.inr (Or.inl (compare_lt_iff_lt.mpr h))

theorem prune_le_length {a b : CleanItem} (h : prune_le a b = true) :
    a.path.length ≤ b.path.length := by
  simp only [prune_le, prune_cmp, ordering_then_isLE_iff] at h
  rcases h with h | ⟨h, _⟩
  · exact le_of_lt (compare_lt_iff_lt.mp h)
  · exact le_of_eq (compare_eq_iff_eq.mp h)

/-! ### `is_ancestor` facts -/

theorem is_ancestor_iff (x y : Path) :
    is_ancestor x y = true ↔ x ≠ y ∧ x <+: y := by
  unfold is_ancestor Path.starts_with
  by_cases h : x = y
  · simp [h]
  · simp [h, List.isPrefixOf_iff_prefix]

theorem is_ancestor_length {x y : Path} (h : is_ancestor x y = true) :
    x.length < y.length := by
  rw [is_ancestor_iff] at h
  obtain ⟨hne, hpre⟩ := h
  rcases lt_or_eq_of_le hpre.length_le with hlt | heq
  · exact hlt
  · exact absurd (hpre.eq_of_length heq) hne

theorem is_ancestor_self (x : Path) : is_ancestor x x = false := by
  simp [is_ancestor]

/-! ### The prune elimination loop -/

theorem pruneLoop_decomp :
    ∀ (rest pruned : List CleanItem),
      ∃ s, s.Sublist rest ∧ pruneLoop pruned rest = pruned ++ s := by
  intro rest
  induction rest with
  | nil =>
    intro pruned
    exact ⟨[], List.Sublist.refl [], by simp [pruneLoop]⟩
  | cons item rest ih =>
    intro pruned
    by_cases h : pruned.any (fun kept => is_ancestor kept.path item.path) = true
    · obtain ⟨s, hs, he⟩ := ih pruned
      exact ⟨s, hs.cons item, by simp [pruneLoop, h, he]⟩
    · obtain ⟨s, hs, he⟩ := ih (pruned ++ [item])
      refine ⟨item :: s, hs.cons₂ item, ?_⟩
      simp [pruneLoop, h, he]

theorem pruneLoop_no_ancestor :
    ∀ (rest pruned : List CleanItem),
      (pruned ++ rest).Pairwise (fun a b => prune_le a b = true) →
      (∀ a ∈ pruned, ∀ b ∈ pruned, is_ancestor a.path b.path = false) →
      ∀ a ∈ pruneLoop pruned rest, ∀ b ∈ pruneLoop pruned rest,
        is_ancestor a.path b.path = false := by
  intro rest
  induction rest with
  | nil =>
    intro pruned _ hinv
    simpa [pruneLoop] using hinv
  | cons item rest ih =>
    intro pruned hp hinv
    by_cases h : pruned.any (fun kept => is_ancestor kept.path item.path) = true
    · simp only [pruneLoop, h, if_true]
      refine ih pruned ?_ hinv
      exact hp.sublist ((List.sublist_cons_self item rest).append_left pruned)
    · simp only [pruneLoop, h, if_false]
      have hnone : ∀ kept ∈ pruned, is_ancestor kept.path item.path = false := by
        intro kept hk
        rcases hb : is_ancestor kept.path item.path with _ | _
        · rfl
        · exact absurd (List.any_eq_true.mpr ⟨kept, hk, hb⟩) h
      have hcross : ∀ x ∈ pruned, prune_le x item = true := fun x hx =>
        (List.pairwise_append.mp hp).2.2 x hx item (List.mem_cons_self item rest)
      refine ih (pruned ++ [item]) ?_ ?_
      · rw [List.append_assoc, List.singleton_append]
        exact hp
      · intro a ha b hb
        rw [List.mem_append, List.mem_singleton] at ha hb
        rcases ha with ha | ha <;> rcases hb with hb | hb
        · exact hinv a ha b hb
        · rw [hb]
          exact hnone a ha
        · rw [ha]
          rcases hanc : is_ancestor item.path b.path with _ | _
          · rfl
          · have hlen := is_ancestor_length hanc
            have hle := prune_le_length (hcross b hb)
            omega
        · rw [ha, hb]
          exact is_ancestor_self _

theorem pruneLoop_eq_self :
    ∀ (rest pruned : List CleanItem),
      (∀ a ∈ pruned ++ rest, ∀ b ∈ pruned ++ rest,
          is_ancestor a.path b.path = false) →
      pruneLoop pruned rest = pruned ++ rest := by
  intro rest
  induction rest with
  | nil =>
    intro pruned _
    simp [pruneLoop]
  | cons item rest ih =>
    intro pruned hinv
    have hany : pruned.any (fun kept => is_ancestor kept.path item.path) = false := by
      rcases hb : pruned.any (fun kept => is_ancestor kept.path item.path) with _ | _
      · rfl
      · obtain ⟨kept, hk, hkb⟩ := List.any_eq_true.mp hb
        have hfalse := hinv kept (List.mem_append_left _ hk) item
          (List.mem_append_right _ (List.mem_cons_self item rest))
        rw [hfalse] at hkb
        exact absurd hkb (by simp)
    simp only [pruneLoop, hany, Bool.false_eq_true, if_false]
    have hinv' : ∀ a ∈ (pruned ++ [item]) ++ rest, ∀ b ∈ (pruned ++ [item]) ++ rest,
        is_ancestor a.path b.path = false := by
      intro a ha b hb
      rw [List.append_assoc, List.singleton_append] at ha hb
      exact hinv a ha b hb
    rw [ih (pruned ++ [item]) hinv', List.append_assoc, List.singleton_append]

/-- C2: after pruning, no surviving item's path is a strict
component-prefix ancestor of another surviving item's path (stated for all
pairs; for equal paths strict ancestry is false by definition). -/
theorem prune_ancestor_exclusive (items : List CleanItem)
    (a : CleanItem) (ha : a ∈ prune_nested_items items)
    (b : CleanItem) (hb : b ∈ prune_nested_items items) :
    is_ancestor a.path b.path = false := by
  unfold prune_nested_items at ha hb
  by_cases hemp : items.isEmpty = true
  · rw [if_pos hemp] at ha
    rw [List.isEmpty_iff] at hemp
    rw [hemp] at ha
    exact absurd ha (List.not_mem_nil a)
  · rw [if_neg hemp] at ha hb
    exact pruneLoop_no_ancestor (items.mergeSort prune_le) []
      (by simpa using List.sorted_mergeSort prune_le_trans prune_le_total items)
      (by intro x hx; exact absurd hx (List.not_mem_nil x))
      a ha b hb

/-- C2 witness: pruning a list containing `/p/dist`, `/p/node_modules` and
the nested `/p/node_modules/pkg/dist` keeps the two top-level directories,
and they are not ancestors of one another. -/
theorem prune_ancestor_exclusive_witness :
    is_ancestor (["p", "dist"] : Path) (["p", "node_modules"] : Path) = false := by
  have hX : prune_nested_items
      [⟨["p", "dist"], 200, ItemType.Directory,
         ⟨"dist", 0, PatternSource.Config, PatternCategory.BuildOutputs⟩⟩,
       ⟨["p", "node_modules"], 500, ItemType.Directory,
         ⟨"node_modules", 1, PatternSource.Config, PatternCategory.Dependencies⟩⟩,
       ⟨["p", "node_modules", "pkg", "dist"], 50, ItemType.Directory,
         ⟨"dist", 0, PatternSource.Config, PatternCategory.BuildOutputs⟩⟩] =
      [⟨["p", "dist"], 200, ItemType.Directory,
         ⟨"dist", 0, PatternSource.Config, PatternCategory.BuildOutputs⟩⟩,
       ⟨["p", "node_modules"], 500, ItemType.Directory,
         ⟨"node_modules", 1, PatternSource.Config, PatternCategory.Dependencies⟩⟩] := by
    unfold prune_nested_items
    rw [if_neg (by decide), List.mergeSort_of_sorted (by decide)]
    decide
  exact prune_ancestor_exclusive _
    ⟨["p", "dist"], 200, ItemType.Directory,
      ⟨"dist", 0, PatternSource.Config, PatternCategory.BuildOutputs⟩⟩
    (by rw [hX]; exact List.mem_cons_self _ _)
    ⟨["p", "node_modules"], 500, ItemType.Directory,
      ⟨"node_modules", 1, PatternSource.Config, PatternCategory.Dependencies⟩⟩
    (by rw [hX]; exact List.mem_cons_of_mem _ (List.mem_cons_self _ _))

/-- C8: pruning is idempotent — pruning an already-pruned item list returns
it unchanged. -/
theorem prune_idempotent (items : List CleanItem) :
    prune_nested_items (prune_nested_items items) = prune_nested_items items := by
  by_cases hemp : items.isEmpty = true
  · have h1 : prune_nested_items items = items := by
      unfold prune_nested_items
      rw [if_pos hemp]
    rw [h1]
    exact h1
  · have hY : prune_nested_items items = pruneLoop [] (items.mergeSort prune_le) := by
      unfold prune_nested_items
      rw [if_neg hemp]
    obtain ⟨s, hsub, hdecomp⟩ := pruneLoop_decomp (items.mergeSort prune_le) []
    have hYs : pruneLoop [] (items.mergeSort prune_le) = s := by
      simpa using hdecomp
    have hpair : s.Pairwise (fun a b => prune_le a b = true) :=
      (List.sorted_mergeSort prune_le_trans prune_le_total items).sublist hsub
    have hinv : ∀ a ∈ s, ∀ b ∈ s, is_ancestor a.path b.path = false := by
      intro a ha b hb
      refine pruneLoop_no_ancestor (items.mergeSort prune_le) [] ?_ ?_ a ?_ b ?_
      · simpa using List.sorted_mergeSort prune_le_trans prune_le_total items
      · intro x hx
        exact absurd hx (List.not_mem_nil x)
      · rw [hYs]
        exact ha
      · rw [hYs]
        exact hb
    rw [hY, hYs]
    by_cases hse : s.isEmpty = true
    · unfold prune_nested_items
      rw [if_pos hse]
    · unfold prune_nested_items
      rw [if_neg hse, List.mergeSort_of_sorted hpair]
      simpa using pruneLoop_eq_self s [] (by simpa using hinv)

/-! ### Live cleaning -/

theorem cleanStep_ok {fs : FsModel} {i : CleanItem} {u : Unit}
    (hd : delete_item fs i = Except.ok u) (st : LiveStats) :
    cleanStep fs st i =
      { st with items_deleted := st.items_deleted + 1,
                bytes_freed := st.bytes_freed + i.size } := by
  simp [cleanStep, hd]

theorem cleanStep_err {fs : FsModel} {i : CleanItem} {e : String}
    (hd : delete_item fs i = Except.error e) (st : LiveStats) :
    cleanStep fs st i =
      { st with errors := st.errors ++ [CleanError.IoError i.path e] } := by
  simp [cleanStep, hd]

/-- The live fold over any item list: successes are counted and sized,
failures are collected in order. -/
theorem clean_foldl_eq (fs : FsModel) :
    ∀ (L : List CleanItem) (st : LiveStats),
      L.foldl (cleanStep fs) st =
        { items_deleted := st.items_deleted + (L.filter (okItem fs)).length
          bytes_freed :=
            st.bytes_freed + ((L.filter (okItem fs)).map (fun i => i.size)).sum
          errors := st.errors ++ L.filterMap (errOf fs) } := by
  intro L
  induction L with
  | nil => intro st; simp
  | cons i rest ih =>
    intro st
    rcases hd : delete_item fs i with e | u
    · rw [List.foldl_cons, cleanStep_err hd, ih]
      simp [List.filter_cons, List.filterMap_cons, okItem, errOf, hd]
    · rw [List.foldl_cons, cleanStep_ok hd, ih]
      simp [List.filter_cons, List.filterMap_cons, okItem, errOf, hd,
            Nat.add_assoc, Nat.add_comm 1]

/-- C3: in live mode every item is attempted exactly once (the attempted
paths are a permutation of the input paths) and one undeletable item k does
not abort the rest: the report counts the other N-1 items as deleted, frees
the sum of their sizes, and carries exactly one error entry with k's path
and the failure message. -/
theorem failure_isolation (c : ParallelCleaner) (fs : FsModel)
    (l₁ l₂ : List CleanItem) (k : CleanItem) (msg : String)
    (hdry : c.dry_run = false)
    (hk : delete_item fs k = Except.error msg)
    (hok : ∀ j ∈ l₁ ++ l₂, delete_item fs j = Except.ok ()) :
    (c.clean fs (l₁ ++ k :: l₂)).1.items_deleted = l₁.length + l₂.length ∧
    (c.clean fs (l₁ ++ k :: l₂)).1.bytes_freed =
      ((l₁ ++ l₂).map (fun i => i.size)).sum ∧
    (c.clean fs (l₁ ++ k :: l₂)).1.errors = [CleanError.IoError k.path msg] ∧
    ((c.clean fs (l₁ ++ k :: l₂)).2).Perm ((l₁ ++ k :: l₂).map (fun i => i.path)) := by
  have hperm : ((l₁ ++ k :: l₂).mergeSort
      (fun a b => decide (b.size ≤ a.size))).Perm (l₁ ++ k :: l₂) :=
    List.mergeSort_perm _ _
  have hokl₁ : ∀ j ∈ l₁, okItem fs j = true := by
    intro j hj
    simp [okItem, hok j (List.mem_append_left _ hj)]
  have hokl₂ : ∀ j ∈ l₂, okItem fs j = true := by
    intro j hj
    simp [okItem, hok j (List.mem_append_right _ hj)]
  have hfilter : (l₁ ++ k :: l₂).filter (okItem fs) = l₁ ++ l₂ := by
    rw [List.filter_append, List.filter_cons]
    rw [List.filter_eq_self.mpr hokl₁, List.filter_eq_self.mpr hokl₂]
    simp [okItem, hk]
  have hfmap : (l₁ ++ k :: l₂).filterMap (errOf fs) =
      [CleanError.IoError k.path msg] := by
    rw [List.filterMap_append, List.filterMap_cons]
    have h₁ : l₁.filterMap (errOf fs) = [] := by
      rw [List.filterMap_eq_nil_iff]
      intro j hj
      simp [errOf, hok j (List.mem_append_left _ hj)]
    have h₂ : l₂.filterMap (errOf fs) = [] := by
      rw [List.filterMap_eq_nil_iff]
      intro j hj
      simp [errOf, hok j (List.mem_append_right _ hj)]
    simp [h₁, h₂, errOf, hk]
  simp only [ParallelCleaner.clean, hdry, Bool.false_eq_true, if_false,
             clean_foldl_eq]
  refine ⟨?_, ?_, ?_, ?_⟩
  · have := (hperm.filter (okItem fs)).length_eq
    rw [hfilter] at this
    simpa using this
  · have := ((hperm.filter (okItem fs)).map (fun i => i.size)).sum_eq
    rw [hfilter] at this
    simpa using this
  · have := hperm.filterMap (errOf fs)
    rw [hfmap] at this
    simpa using List.perm_singleton.mp this
  · exact hperm.map (fun i => i.path)

/-- C3 witness: three concrete items of which exactly the middle one is
undeletable: 2 deleted, 40 bytes freed, a single error entry naming the
failing path, and all three paths attempted. -/
theorem failure_isolation_witness :
    (({} : ParallelCleaner).clean
      { remove_dir_all := fun p => if p = ["d", "bad"] then Except.error "denied"
                                   else Except.ok ()
        remove_file := fun _ => Except.ok () }
      [⟨["d", "ok1"], 10, ItemType.Directory,
         ⟨"t", 0, PatternSource.Config, PatternCategory.Other⟩⟩,
       ⟨["d", "bad"], 20, ItemType.Directory,
         ⟨"t", 0, PatternSource.Config, PatternCategory.Other⟩⟩,
       ⟨["d", "ok2"], 30, ItemType.File,
         ⟨"t", 0, PatternSource.Config, PatternCategory.Other⟩⟩]).1.items_deleted = 2 ∧
    (({} : ParallelCleaner).clean
      { remove_dir_all := fun p => if p = ["d", "bad"] then Except.error "denied"
                                   else Except.ok ()
        remove_file := fun _ => Except.ok () }
      [⟨["d", "ok1"], 10, ItemType.Directory,
         ⟨"t", 0, PatternSource.Config, PatternCategory.Other⟩⟩,
       ⟨["d", "bad"], 20, ItemType.Directory,
         ⟨"t", 0, PatternSource.Config, PatternCategory.Other⟩⟩,
       ⟨["d", "ok2"], 30, ItemType.File,
         ⟨"t", 0, PatternSource.Config, PatternCategory.Other⟩⟩]).1.bytes_freed = 40 ∧
    (({} : ParallelCleaner).clean
      { remove_dir_all := fun p => if p = ["d", "bad"] then Except.error "denied"
                                   else Except.ok ()
        remove_file := fun _ => Except.ok () }
      [⟨["d", "ok1"], 10, ItemType.Directory,
         ⟨"t", 0, PatternSource.Config, PatternCategory.Other⟩⟩,
       ⟨["d", "bad"], 20, ItemType.Directory,
         ⟨"t", 0, PatternSource.Config, PatternCategory.Other⟩⟩,
       ⟨["d", "ok2"], 30, ItemType.File,
         ⟨"t", 0, PatternSource.Config, PatternCategory.Other⟩⟩]).1.errors =
      [CleanError.IoError ["d", "bad"] "denied"] := by
  have hfi := failure_isolation ({} : ParallelCleaner)
    { remove_dir_all := fun p => if p = ["d", "bad"] then Except.error "denied"
                                 else Except.ok ()
      remove_file := fun _ => Except.ok () }
    [⟨["d", "ok1"], 10, ItemType.Directory,
       ⟨"t", 0, PatternSource.Config, PatternCategory.Other⟩⟩]
    [⟨["d", "ok2"], 30, ItemType.File,
       ⟨"t", 0, PatternSource.Config, PatternCategory.Other⟩⟩]
    ⟨["d", "bad"], 20, ItemType.Directory,
      ⟨"t", 0, PatternSource.Config, PatternCategory.Other⟩⟩
    "denied" rfl rfl
    (by
      intro j hj
      simp only [List.mem_append, List.mem_singleton] at hj
      rcases hj with rfl | rfl <;> rfl)
  exact ⟨hfi.1, hfi.2.1, hfi.2.2.1⟩

/-! ### The `dir_sizes` association map -/

theorem lookup_addAt (m : List (Path × Nat)) (key k : Path) (amt : Nat) :
    List.lookup k (addAt m key amt) =
      if k = key then (List.lookup k m).map (fun v => v + amt)
      else List.lookup k m := by
  induction m with
  | nil => simp [addAt]
  | cons kv rest ih =>
    obtain ⟨k₀, v₀⟩ := kv
    by_cases hk : k₀ = key
    · subst hk
      by_cases hkk : k = k₀
      · subst hkk
        simp [addAt, List.lookup]
      · simp [addAt, List.lookup, beq_false_of_ne hkk, hkk]
    · by_cases hkk : k = k₀
      · subst hkk
        simp [addAt, hk, List.lookup]
      · simp [addAt, hk, List.lookup, beq_false_of_ne hkk, ih]

theorem any_key_iff_lookup (m : List (Path × Nat)) (key : Path) :
    m.any (fun kv => kv.1 = key) = true ↔ (List.lookup key m).isSome = true := by
  induction m with
  | nil => simp [List.lookup]
  | cons kv rest ih =>
    obtain ⟨k₀, v₀⟩ := kv
    by_cases hk : k₀ = key
    · subst hk
      simp [List.lookup]
    · simp [List.lookup, hk, beq_false_of_ne (Ne.symm hk), ih]

theorem lookup_insertKey (m : List (Path × Nat)) (key k : Path) :
    List.lookup k (insertKey m key) =
      (List.lookup k m).or (if k = key then some 0 else none) := by
  unfold insertKey
  by_cases hany : m.any (fun kv => kv.1 = key) = true
  · rw [if_pos hany]
    by_cases hk : k = key
    · subst hk
      obtain ⟨v, hv⟩ := Option.isSome_iff_exists.mp ((any_key_iff_lookup m k).mp hany)
      simp [hv]
    · cases h : List.lookup k m <;> simp [hk]
  · rw [if_neg hany, List.lookup_append]
    by_cases hk : k = key
    · subst hk
      simp [List.lookup]
    · simp [List.lookup, beq_false_of_ne hk, hk]

theorem lookup_insertKeys (ks : List Path) :
    ∀ (m : List (Path × Nat)) (k : Path),
      List.lookup k (ks.foldl insertKey m) =
        (List.lookup k m).or (if k ∈ ks then some 0 else none) := by
  induction ks with
  | nil =>
    intro m k
    cases h : List.lookup k m <;> simp [h]
  | cons a ks ih =>
    intro m k
    rw [List.foldl_cons, ih, lookup_insertKey]
    by_cases hka : k = a
    · subst hka
      cases h : List.lookup k m <;> simp [List.mem_cons]
    · by_cases hks : k ∈ ks <;>
        cases h : List.lookup k m <;> simp [List.mem_cons, hka, hks]

theorem lookup_addBases (L : List (Path × Nat)) :
    ∀ (m : List (Path × Nat)) (k : Path),
      List.lookup k (L.foldl (fun m pb => addAt m pb.1 pb.2) m) =
        (List.lookup k m).map
          (fun v => v + ((L.filter (fun pb => pb.1 = k)).map (fun pb => pb.2)).sum) := by
  induction L with
  | nil =>
    intro m k
    cases h : List.lookup k m <;> simp [h]
  | cons pb L ih =>
    intro m k
    obtain ⟨p, b⟩ := pb
    rw [List.foldl_cons, ih, lookup_addAt]
    by_cases hkp : k = p
    · subst hkp
      cases h : List.lookup k m <;>
        simp [List.filter_cons, Nat.add_assoc]
    · have : ¬ (p = k) := fun h => hkp h.symm
      cases h : List.lookup k m <;> simp [List.filter_cons, hkp, this]

theorem lookup_addAll (s : Nat) :
    ∀ (as : List Path) (m : List (Path × Nat)) (k : Path),
      List.lookup k (as.foldl (fun m a => addAt m a s) m) =
        (List.lookup k m).map (fun v => v + s * as.count k) := by
  intro as
  induction as with
  | nil =>
    intro m k
    cases h : List.lookup k m <;> simp [h]
  | cons a as ih =>
    intro m k
    rw [List.foldl_cons, ih, lookup_addAt]
    by_cases hka : k = a
    · subst hka
      cases h : List.lookup k m
      · simp [List.count_cons]
      · simp [List.count_cons, Nat.mul_add, Nat.mul_one]
        omega
    · cases h : List.lookup k m <;> simp [h, List.count_cons, hka]

theorem lookup_addFileToDirs (root : Path) (m : List (Path × Nat))
    (fp : Path × Nat) (k : Path) :
    List.lookup k (addFileToDirs root m fp) =
      (List.lookup k m).map
        (fun v => v + fp.2 * (takenAncestors root fp.1).count k) :=
  lookup_addAll fp.2 (takenAncestors root fp.1) m k

theorem lookup_addFiles (root : Path) (FS : List (Path × Nat)) :
    ∀ (m : List (Path × Nat)) (k : Path),
      List.lookup k (FS.foldl (addFileToDirs root) m) =
        (List.lookup k m).map
          (fun v => v +
            (FS.map (fun fp => fp.2 * (takenAncestors root fp.1).count k)).sum) := by
  induction FS with
  | nil =>
    intro m k
    cases h : List.lookup k m <;> simp [h]
  | cons fp FS ih =>
    intro m k
    rw [List.foldl_cons, ih, lookup_addFileToDirs]
    cases h : List.lookup k m <;> simp [Nat.add_assoc]

/-! ### The ancestor chain -/

theorem ancestorsSkipSelf_concat (p : Path) (a : String) :
    ancestorsSkipSelf (p ++ [a]) = p :: ancestorsSkipSelf p := by
  unfold ancestorsSkipSelf
  rw [List.length_append, List.length_singleton, List.range_succ_eq_map,
      List.map_cons, List.map_map]
  congr 1
  · show (p ++ [a]).take (p.length + 1 - 1 - 0) = p
    rw [show p.length + 1 - 1 - 0 = p.length from by omega]
    exact List.take_left p [a]
  · refine List.map_congr_left ?_
    intro k hk
    rw [List.mem_range] at hk
    simp only [Function.comp_apply]
    rw [show p.length + 1 - 1 - (k + 1) = p.length - 1 - k from by omega]
    exact List.take_append_of_le_length (by omega)

theorem prefix_concat_cases {q p : Path} {a : String} :
    q <+: p ++ [a] ↔ q = p ++ [a] ∨ q <+: p := by
  constructor
  · rintro ⟨t, ht⟩
    induction t using List.reverseRecOn with
    | nil =>
      left
      simpa using ht
    | append_singleton ts b _ =>
      right
      rw [← List.append_assoc] at ht
      obtain ⟨h₁, _⟩ := List.append_inj ht (by
        have hlen := congrArg List.length ht
        simp only [List.length_append, List.length_singleton] at hlen ⊢
        omega)
      exact ⟨ts, h₁⟩
  · rintro (rfl | h)
    · exact ⟨[], by simp⟩
    · exact h.trans ⟨[a], rfl⟩

theorem mem_ancestorsSkipSelf : ∀ (p q : Path),
    q ∈ ancestorsSkipSelf p ↔ (q ≠ p ∧ q <+: p) := by
  intro p
  induction p using List.reverseRecOn with
  | nil =>
    intro q
    constructor
    · intro h
      exact absurd h (by simp [ancestorsSkipSelf])
    · rintro ⟨hne, hpre⟩
      exact absurd (List.prefix_nil.mp hpre) hne
  | append_singleton p a ih =>
    intro q
    rw [ancestorsSkipSelf_concat, List.mem_cons, ih q]
    constructor
    · rintro (rfl | ⟨hne, hpre⟩)
      · refine ⟨?_, ⟨[a], rfl⟩⟩
        intro he
        have := congrArg List.length he
        simp at this
      · refine ⟨?_, hpre.trans ⟨[a], rfl⟩⟩
        intro he
        rw [he] at hpre
        have := hpre.length_le
        simp at this
    · rintro ⟨hne, hpre⟩
      rcases prefix_concat_cases.mp hpre with rfl | h
      · exact absurd rfl hne
      · by_cases hqp : q = p
        · exact Or.inl hqp
        · exact Or.inr ⟨hqp, h⟩

theorem nodup_ancestorsSkipSelf (p : Path) : (ancestorsSkipSelf p).Nodup := by
  unfold ancestorsSkipSelf
  refine List.Nodup.map_on ?_ (List.nodup_range _)
  intro x hx y hy hxy
  rw [List.mem_range] at hx hy
  have hlx : (p.take (p.length - 1 - x)).length = p.length - 1 - x := by
    rw [List.length_take]
    omega
  have hly : (p.take (p.length - 1 - y)).length = p.length - 1 - y := by
    rw [List.length_take]
    omega
  have := congrArg List.length hxy
  rw [hlx, hly] at this
  omega

theorem mem_takenAncestors : ∀ (f root k : Path),
    k ∈ takenAncestors root f ↔
      (k ≠ f ∧ k <+: f ∧ root.isPrefixOf k = true) := by
  intro f
  induction f using List.reverseRecOn with
  | nil =>
    intro root k
    constructor
    · intro h
      exact absurd h (by simp [takenAncestors, ancestorsSkipSelf])
    · rintro ⟨hne, hpre, _⟩
      exact absurd (List.prefix_nil.mp hpre) hne
  | append_singleton p a ih =>
    intro root k
    unfold takenAncestors
    rw [ancestorsSkipSelf_concat, List.takeWhile_cons]
    by_cases hq : Path.starts_with p root = true
    · rw [if_pos hq, List.mem_cons]
      rw [show (ancestorsSkipSelf p).takeWhile (fun x => Path.starts_with x root) =
            takenAncestors root p from rfl, ih root k]
      constructor
      · rintro (rfl | ⟨hne, hpre, hroot⟩)
        · refine ⟨?_, ⟨[a], rfl⟩, hq⟩
          intro he
          have := congrArg List.length he
          simp at this
        · refine ⟨?_, hpre.trans ⟨[a], rfl⟩, hroot⟩
          intro he
          rw [he] at hpre
          have := hpre.length_le
          simp at this
      · rintro ⟨hne, hpre, hroot⟩
        rcases prefix_concat_cases.mp hpre with rfl | h
        · exact absurd rfl hne
        · by_cases hkp : k = p
          · exact Or.inl hkp
          · exact Or.inr ⟨hkp, h, hroot⟩
    · rw [if_neg hq]
      simp only [List.not_mem_nil, false_iff, not_and]
      intro hne hpre hroot
      rcases prefix_concat_cases.mp hpre with rfl | h
      · exact hne rfl
      · refine absurd ?_ hq
        show root.isPrefixOf p = true
        rw [List.isPrefixOf_iff_prefix] at hroot ⊢
        exact hroot.trans h

theorem count_of_nodup (k : Path) : ∀ (l : List Path), l.Nodup →
    l.count k = if k ∈ l then 1 else 0 := by
  intro l
  induction l with
  | nil => simp
  | cons a l ih =>
    intro hnd
    obtain ⟨hna, hnd'⟩ := List.nodup_cons.mp hnd
    rw [List.count_cons, ih hnd']
    by_cases hka : k = a
    · subst hka
      have hkl : k ∉ l := hna
      simp [hkl]
    · have hak : ¬ (a = k) := fun h => hka h.symm
      simp [List.mem_cons, hka, hak]

theorem count_takenAncestors (root f k : Path) :
    (takenAncestors root f).count k =
      if k ∈ takenAncestors root f then 1 else 0 := by
  have hnd : (takenAncestors root f).Nodup :=
    (nodup_ancestorsSkipSelf f).sublist (List.takeWhile_sublist _)
  exact count_of_nodup k _ hnd

/-- Per recorded file, the ancestor-walk contribution to a directory k
under the scan root is the file's size exactly when k is a strict
component ancestor of the file's path. -/
theorem sum_file_contrib (root k : Path) (hk : root.isPrefixOf k = true)
    (FS : List (Path × Nat)) :
    (FS.map (fun fp => fp.2 * (takenAncestors root fp.1).count k)).sum =
      ((FS.filter (fun fp => is_ancestor k fp.1)).map (fun fp => fp.2)).sum := by
  induction FS with
  | nil => simp
  | cons fp FS ih =>
    rw [List.map_cons, List.sum_cons, ih, List.filter_cons]
    by_cases hanc : is_ancestor k fp.1 = true
    · have hmem : k ∈ takenAncestors root fp.1 := by
        obtain ⟨hne, hpre⟩ := (is_ancestor_iff k fp.1).mp hanc
        exact (mem_takenAncestors fp.1 root k).mpr ⟨hne, hpre, hk⟩
      rw [count_takenAncestors, if_pos hmem, if_pos hanc]
      simp
    · have hnotmem : k ∉ takenAncestors root fp.1 := by
        intro hm
        obtain ⟨hne, hpre, _⟩ := (mem_takenAncestors fp.1 root k).mp hm
        exact hanc ((is_ancestor_iff k fp.1).mpr ⟨hne, hpre⟩)
      rw [count_takenAncestors, if_neg hnotmem, if_neg hanc]
      simp

/-- C1 (amended): a directory D among the final scan candidates (with D
under the scan root) reports as its size the sum of D's own recorded
directory metadata sizes plus the sizes of all recorded regular files (and
symlinks to files) whose paths have D as a strict component ancestor —
i.e. the claim's file-size sum plus the directory's own reported inode
size. -/
theorem scan_directory_size (root : Path) (m : PatternMatcher)
    (entries : List WalkEntry) (item : CleanItem)
    (hmem : item ∈ (Scanner.scan root m entries).1)
    (hdir : item.item_type = ItemType.Directory)
    (hr : root.isPrefixOf item.path = true) :
    item.size =
      (((entries.filterMap (dirBaseRecord root)).filter
          (fun pb => pb.1 = item.path)).map (fun pb => pb.2)).sum +
      (((entries.filterMap (fileRecord root)).filter
          (fun fp => is_ancestor item.path fp.1)).map (fun fp => fp.2)).sum := by
  unfold Scanner.scan at hmem
  rw [scan_foldl_eq root m entries {}] at hmem
  simp only [List.nil_append] at hmem
  split at hmem
  · next hemp =>
    rw [List.isEmpty_iff] at hemp
    rw [hemp] at hmem
    exact absurd hmem (List.not_mem_nil item)
  · next hemp =>
    split at hmem
    · next hmempty =>
      rw [List.isEmpty_iff] at hmempty
      have : item.path ∈ (entries.filterMap (itemRecord root m)).filterMap
          (fun item => if item.item_type = ItemType.Directory
                       then some item.path else none) :=
        List.mem_filterMap.mpr ⟨item, hmem, by rw [if_pos hdir]⟩
      rw [hmempty] at this
      exact absurd this (List.not_mem_nil _)
    · next hmempty =>
      obtain ⟨item₀, h₀, hup⟩ := List.mem_map.mp hmem
      by_cases hdt : item₀.item_type = ItemType.Directory
      · have hmemk : item₀.path ∈ (entries.filterMap (itemRecord root m)).filterMap
            (fun item => if item.item_type = ItemType.Directory
                         then some item.path else none) :=
          List.mem_filterMap.mpr ⟨item₀, h₀, by rw [if_pos hdt]⟩
        rw [if_pos hdt] at hup
        rw [lookup_addFiles, lookup_addBases, lookup_insertKeys,
            if_pos hmemk] at hup
        simp only [List.lookup, Option.or, Option.map_some', Nat.zero_add] at hup
        rw [← hup] at hdir hr ⊢
        simp only at hdir hr ⊢
        rw [sum_file_contrib root item₀.path hr]
      · rw [if_neg hdt] at hup
        rw [← hup] at hdir
        exact absurd hdir hdt

/-- C1 counterexample: scanning `/root` with a directory rule matching `a`,
where `/root/a/x.txt` is 100 bytes, `/root/a/b/y.txt` is 50 bytes and each
directory's own metadata reports 4096 bytes, yields the candidate `/root/a`
with size 4246 — not exactly 150 as the claim states — because the
aggregation also adds the matched directory's own recorded metadata size. -/
theorem scan_directory_size_counterexample :
    Scanner.scan ["root"]
      { directory_patterns := [(⟨"a", fun n => n == "a"⟩, PatternCategory.Other)]
        file_patterns := [], exclude_patterns := [] }
      [WalkEntry.ok ["root"] FileType.dir (Except.ok ⟨4096, false⟩),
       WalkEntry.ok ["root", "a"] FileType.dir (Except.ok ⟨4096, false⟩),
       WalkEntry.ok ["root", "a", "x.txt"] FileType.file (Except.ok ⟨100, true⟩),
       WalkEntry.ok ["root", "a", "b"] FileType.dir (Except.ok ⟨4096, false⟩),
       WalkEntry.ok ["root", "a", "b", "y.txt"] FileType.file (Except.ok ⟨50, true⟩)] =
      ([{ path := ["root", "a"], size := 4246, item_type := ItemType.Directory,
          pattern := { pattern := "a", priority := 0,
                       source := PatternSource.Config,
                       category := PatternCategory.Other } }], []) ∧
    (4246 : Nat) ≠ 150 :=
  ⟨by decide, by decide⟩

/-- C1 witness: the amended size law applied to the concrete scan above —
the candidate `/root/a` carries size 4246, which the law decomposes as its
own 4096-byte recorded base plus the 150 bytes of `x.txt` and `y.txt`. -/
theorem scan_directory_size_witness :
    ({ path := ["root", "a"], size := 4246, item_type := ItemType.Directory,
       pattern := { pattern := "a", priority := 0,
                    source := PatternSource.Config,
                    category := PatternCategory.Other } } : CleanItem).size =
      ((([WalkEntry.ok ["root"] FileType.dir (Except.ok ⟨4096, false⟩),
          WalkEntry.ok ["root", "a"] FileType.dir (Except.ok ⟨4096, false⟩),
          WalkEntry.ok ["root", "a", "x.txt"] FileType.file (Except.ok ⟨100, true⟩),
          WalkEntry.ok ["root", "a", "b"] FileType.dir (Except.ok ⟨4096, false⟩),
          WalkEntry.ok ["root", "a", "b", "y.txt"] FileType.file
            (Except.ok ⟨50, true⟩)].filterMap (dirBaseRecord ["root"])).filter
          (fun pb => pb.1 =
            ({ path := ["root", "a"], size := 4246, item_type := ItemType.Directory,
               pattern := { pattern := "a", priority := 0,
                            source := PatternSource.Config,
                            category := PatternCategory.Other } } : CleanItem).path)).map
        (fun pb => pb.2)).sum +
      ((([WalkEntry.ok ["root"] FileType.dir (Except.ok ⟨4096, false⟩),
          WalkEntry.ok ["root", "a"] FileType.dir (Except.ok ⟨4096, false⟩),
          WalkEntry.ok ["root", "a", "x.txt"] FileType.file (Except.ok ⟨100, true⟩),
          WalkEntry.ok ["root", "a", "b"] FileType.dir (Except.ok ⟨4096, false⟩),
          WalkEntry.ok ["root", "a", "b", "y.txt"] FileType.file
            (Except.ok ⟨50, true⟩)].filterMap (fileRecord ["root"])).filter
          (fun fp => is_ancestor
            ({ path := ["root", "a"], size := 4246, item_type := ItemType.Directory,
               pattern := { pattern := "a", priority := 0,
                            source := PatternSource.Config,
                            category := PatternCategory.Other } } : CleanItem).path
            fp.1)).map (fun fp => fp.2)).sum :=
  scan_directory_size ["root"]
    { directory_patterns := [(⟨"a", fun n => n == "a"⟩, PatternCategory.Other)]
      file_patterns := [], exclude_patterns := [] }
    [WalkEntry.ok ["root"] FileType.dir (Except.ok ⟨4096, false⟩),
     WalkEntry.ok ["root", "a"] FileType.dir (Except.ok ⟨4096, false⟩),
     WalkEntry.ok ["root", "a", "x.txt"] FileType.file (Except.ok ⟨100, true⟩),
     WalkEntry.ok ["root", "a", "b"] FileType.dir (Except.ok ⟨4096, false⟩),
     WalkEntry.ok ["root", "a", "b", "y.txt"] FileType.file (Except.ok ⟨50, true⟩)]
    { path := ["root", "a"], size := 4246, item_type := ItemType.Directory,
      pattern := { pattern := "a", priority := 0,
                   source := PatternSource.Config,
                   category := PatternCategory.Other } }
    (by decide) (by decide) (by decide)

end MC
